import Mathlib

/-!
Shallow embedding of the band-math / vegetation-classification pipeline of
the Seurasaari trees notebook (src/Raster/Seurasaari_trees.ipynb).

Floating-point samples are modelled by an extended-value type `FVal`
(quiet NaN, signed infinity, or an exact rational).  Rounding of finite
results is irrelevant to every property proved here (each one is about
NaN propagation, zero denominators, exact endpoint values, or order
relations), so finite values carry exact rationals.  A raster band is a
list of rows, `List (List FVal)`.

The notebook delegates several operations to a `seurasaari_toolbox`
module whose source is not part of the repository snapshot; those
operations (`stretch`, `get_corine_dict`, `get_zonal_stats_percentage`,
`create_forest_mask`) are modelled from the specification text and are
marked as such in their doc comments.
-/

namespace Seurasaari

/-- Extended floating value: quiet NaN, infinity with a sign
(`true` = positive), or a finite (rational) value. -/
inductive FVal where
  | nan : FVal
  | inf : Bool → FVal
  | fin : ℚ → FVal
  deriving DecidableEq

/-- IEEE-style negation on extended values. -/
def fneg : FVal → FVal
  | FVal.nan => FVal.nan
  | FVal.inf s => FVal.inf (!s)
  | FVal.fin a => FVal.fin (-a)

/-- IEEE-style addition: NaN propagates quietly, opposite infinities
give NaN, finite addition is exact. -/
def fadd : FVal → FVal → FVal
  | FVal.nan, _ => FVal.nan
  | _, FVal.nan => FVal.nan
  | FVal.inf s, FVal.inf t => if s = t then FVal.inf s else FVal.nan
  | FVal.inf s, FVal.fin _ => FVal.inf s
  | FVal.fin _, FVal.inf t => FVal.inf t
  | FVal.fin a, FVal.fin b => FVal.fin (a + b)

/-- Subtraction, as addition of the negation. -/
def fsub (a b : FVal) : FVal := fadd a (fneg b)

/-- IEEE-style division: NaN propagates quietly, `0 / 0` is NaN,
a nonzero finite numerator over zero is a signed infinity, finite
division is exact. -/
def fdiv : FVal → FVal → FVal
  | FVal.nan, _ => FVal.nan
  | _, FVal.nan => FVal.nan
  | FVal.inf _, FVal.inf _ => FVal.nan
  | FVal.inf s, FVal.fin b => if b < 0 then FVal.inf (!s) else FVal.inf s
  | FVal.fin _, FVal.inf _ => FVal.fin 0
  | FVal.fin a, FVal.fin b =>
      if b = 0 then (if a = 0 then FVal.nan else FVal.inf (decide (0 < a)))
      else FVal.fin (a / b)

/-- Elementwise strict comparison as numpy computes it: any comparison
against NaN is false. -/
def fgt : FVal → FVal → Bool
  | FVal.nan, _ => false
  | _, FVal.nan => false
  | FVal.inf s, FVal.inf t => s && !t
  | FVal.inf s, FVal.fin _ => s
  | FVal.fin _, FVal.inf t => !t
  | FVal.fin a, FVal.fin b => decide (b < a)

/-- Pixel lookup in a row-major band: row `i`, column `j`. -/
def idx2 {α : Type} (a : List (List α)) (i j : ℕ) : Option α :=
  a[i]?.bind fun row => row[j]?

/-- Embedding of a raw unsigned-integer band into extended values. -/
def ofRaw (raw : List (List ℕ)) : List (List FVal) :=
  raw.map (List.map (fun n : ℕ => FVal.fin (n : ℚ)))

/-- First half of notebook cell 15: `band / scale_factor`, elementwise. -/
def divByScale (band : List (List FVal)) (s : ℚ) : List (List FVal) :=
  band.map (List.map (fun v => fdiv v (FVal.fin s)))

/-- Second half of notebook cell 15: `band[band == 0] = np.nan`.  A NaN
or infinite sample compares unequal to 0, so only exact zeros are
replaced. -/
def maskZeros (band : List (List FVal)) : List (List FVal) :=
  band.map (List.map (fun v => if v = FVal.fin 0 then FVal.nan else v))

/-- Notebook cell 15 normalization: divide every sample by the scale
factor, then replace every resulting zero with NaN. -/
def normalizeBand (band : List (List FVal)) (s : ℚ) : List (List FVal) :=
  maskZeros (divByScale band s)

/-- Notebook cell 22 out-of-range correction: `band[band > 1] = 1`.
The comparison with NaN is false, so NaN pixels are untouched. -/
def clampAboveOne (band : List (List FVal)) : List (List FVal) :=
  band.map (List.map (fun v => if fgt v (FVal.fin 1) then FVal.fin 1 else v))

/-- One numpy floating-point error class mode, as set by `np.seterr`. -/
inductive ErrMode where
  | ignore : ErrMode
  | warn : ErrMode
  | raiseErr : ErrMode
  deriving DecidableEq

/-- The process-wide numpy error-handling state for the two error
classes touched by the notebook. -/
structure NpErrState where
  divide : ErrMode
  invalid : ErrMode
  deriving DecidableEq

/-- The numpy default: both `divide` and `invalid` warn. -/
def npDefaultErr : NpErrState := ⟨ErrMode.warn, ErrMode.warn⟩

/-- Model of `np.seterr`: each keyword supplied replaces the process-wide
mode for that error class, a keyword omitted leaves it unchanged. -/
def np_seterr (d i : Option ErrMode) (s : NpErrState) : NpErrState :=
  ⟨d.getD s.divide, i.getD s.invalid⟩

/-- State after notebook cell 50,
`np.seterr(divide="ignore", invalid="ignore")`, starting from the
default state. -/
def errStateCell50 : NpErrState :=
  np_seterr (some ErrMode.ignore) (some ErrMode.ignore) npDefaultErr

/-- State in effect after the NDVI computation of cell 52: the NDVI
expression is pure array arithmetic and no later cell calls `np.seterr`,
so the state set in cell 50 persists for the rest of the notebook. -/
def errStateAfterNdvi : NpErrState := errStateCell50

/-- Whether an elementwise division of these operands sets the IEEE
divide-by-zero flag (nonzero finite numerator over zero). -/
def divRaisesDivide (num den : FVal) : Bool :=
  match num, den with
  | FVal.fin a, FVal.fin b => decide (b = 0) && !decide (a = 0)
  | _, _ => false

/-- Whether an elementwise division of these operands sets the IEEE
invalid flag (`0 / 0` or `inf / inf`; quiet NaN operands do not signal). -/
def divRaisesInvalid (num den : FVal) : Bool :=
  match num, den with
  | FVal.fin a, FVal.fin b => decide (a = 0) && decide (b = 0)
  | FVal.inf _, FVal.inf _ => true
  | _, _ => false

/-- Whether numpy reports (warns or throws) on an elementwise division
under the given error state: a flag set by the operation is reported
exactly when its mode is not `ignore`. -/
def npDivSignals (s : NpErrState) (num den : FVal) : Bool :=
  (divRaisesDivide num den && !decide (s.divide = ErrMode.ignore)) ||
  (divRaisesInvalid num den && !decide (s.invalid = ErrMode.ignore))

/-- The NDVI formula at one pixel, notebook cell 52:
`(nir - red) / (nir + red)`. -/
def ndviPix (n r : FVal) : FVal := fdiv (fsub n r) (fadd n r)

/-- Notebook cell 52: `(ss_nir - ss_red) / (ss_nir + ss_red)`,
elementwise over the two bands. -/
def ndvi (nir red : List (List FVal)) : List (List FVal) :=
  List.zipWith (List.zipWith ndviPix) nir red

/-- A reflectance sample: NaN (no-data) or a nonnegative finite value. -/
def IsReflectanceVal (v : FVal) : Prop :=
  v = FVal.nan ∨ ∃ q : ℚ, v = FVal.fin q ∧ 0 ≤ q

/-- A reflectance band: every sample is NaN or a nonnegative finite
value. -/
def IsReflectance (band : List (List FVal)) : Prop :=
  ∀ row ∈ band, ∀ v ∈ row, IsReflectanceVal v

/-- A no-data-masked reflectance sample: NaN, or finite in `(0, 1]`
(zeros were already replaced by NaN, values lie in `[0, 1]`). -/
def IsMaskedReflectanceVal (v : FVal) : Prop :=
  v = FVal.nan ∨ ∃ q : ℚ, v = FVal.fin q ∧ 0 < q ∧ q ≤ 1

/-- A no-data-masked reflectance band. -/
def IsMaskedReflectance (band : List (List FVal)) : Prop :=
  ∀ row ∈ band, ∀ v ∈ row, IsMaskedReflectanceVal v

/-- Modelled from the spec: `stb.create_forest_mask` is not in the
repository snapshot (only its call site in cell 73).  Per the spec, for
each pixel of the categorical band the mask holds 1 if the pixel's code
is in `forest_codes` and 0 otherwise, and a pixel equal to the raster's
no-data value (when one is defined) always yields 0. -/
def create_forest_mask (band : List (List ℤ)) (forest_codes : List ℤ)
    (nodata : Option ℤ) : List (List ℕ) :=
  band.map (List.map (fun c =>
    if some c = nodata then 0 else if c ∈ forest_codes then 1 else 0))

/-- Rounding to one decimal place (round half away from zero at the
second decimal is irrelevant to the properties proved, which use exact
inputs). -/
def round1 (q : ℚ) : ℚ := ((round (10 * q) : ℤ) : ℚ) / 10

/-- Total pixel count of a zonal-statistics record. -/
def totalCount (record : List (String × ℕ)) : ℕ :=
  (record.map Prod.snd).sum

/-- Modelled from the spec: `stb.get_zonal_stats_percentage` is not in
the repository snapshot (only its call site in cell 67).  Per the spec,
sum all counts as the total; when the total is 0 (including the empty
record) return the empty mapping rather than dividing; otherwise map
each entry to `100 * count / total` rounded to one decimal place. -/
def get_zonal_stats_percentage (record : List (String × ℕ)) :
    List (String × ℚ) :=
  if totalCount record = 0 then []
  else record.map (fun e =>
    (e.1, round1 (100 * (e.2 : ℚ) / (totalCount record : ℚ))))

/-- Error raised when a category lookup table defines one code twice
with conflicting labels. -/
inductive CatError where
  | duplicateCategory : ℤ → CatError
  deriving DecidableEq

/-- Label currently recorded for a code in a partially built category
map. -/
def lookupCode (c : ℤ) (m : List (ℤ × String)) : Option String :=
  (m.find? (fun p => p.1 == c)).map Prod.snd

/-- One step of building the category map: an unparsable row (`none`)
is skipped (a warning, a side effect outside this model, is emitted);
a parsed row with a fresh code is inserted; a row repeating a code with
the same label is tolerated; a row repeating a code with a conflicting
label raises `CatError.duplicateCategory`. -/
def insertRow (acc : Except CatError (List (ℤ × String)))
    (row : Option (ℤ × String)) : Except CatError (List (ℤ × String)) :=
  match acc with
  | Except.error e => Except.error e
  | Except.ok m =>
    match row with
    | none => Except.ok m
    | some (c, lbl) =>
      match lookupCode c m with
      | none => Except.ok ((c, lbl) :: m)
      | some lbl2 =>
        if lbl2 = lbl then Except.ok m
        else Except.error (CatError.duplicateCategory c)

/-- Modelled from the spec: `stb.get_corine_dict` is not in the
repository snapshot (only its call site in cell 65).  Per the spec it
parses lookup-table rows into a code-to-label map; a row is either
parsed (`some (code, label)`) or unparsable (`none`). -/
def get_corine_dict (rows : List (Option (ℤ × String))) :
    Except CatError (List (ℤ × String)) :=
  rows.foldl insertRow (Except.ok [])

/-- The finite (non-no-data) samples of a band, in row-major order. -/
def validSamples (band : List (List FVal)) : List ℚ :=
  band.flatten.filterMap (fun v =>
    match v with
    | FVal.fin q => some q
    | _ => none)

/-- Linear interpolation into a sorted sample list at fractional rank
`r`: the value is `s[⌊r⌋] + fract r * (s[⌊r⌋ + 1] - s[⌊r⌋])`, or the
last available sample when rank `⌊r⌋ + 1` runs off the end. -/
def interpAt (s : List ℚ) (r : ℚ) : ℚ :=
  match s[(⌊r⌋).toNat]?, s[(⌊r⌋).toNat + 1]? with
  | some a, some b => a + Int.fract r * (b - a)
  | some a, none => a
  | none, _ => 0

/-- The `p`-th percentile of a sample list: sort, then interpolate at
rank `p / 100 * (n - 1)`. -/
def percentileOf (xs : List ℚ) (p : ℚ) : ℚ :=
  interpAt (List.insertionSort (fun a b : ℚ => a ≤ b) xs)
    (p / 100 * ((xs.length : ℚ) - 1))

/-- Modelled from the spec: `stb.stretch` is not in the repository
snapshot (only its call site in cell 29).  Per the spec, compute the
low and high percentile values over the non-no-data samples, linearly
remap those two values to 0 and 1, clamp every remapped sample into
`[0, 1]`, and leave no-data samples as no-data; when the two percentile
values coincide, return the input unchanged instead of dividing by
zero. -/
def stretch (band : List (List FVal))
    (low_percentile high_percentile : ℚ) : List (List FVal) :=
  if percentileOf (validSamples band) low_percentile =
      percentileOf (validSamples band) high_percentile then band
  else band.map (List.map (fun v =>
    match v with
    | FVal.fin q =>
        FVal.fin (max 0 (min 1
          ((q - percentileOf (validSamples band) low_percentile) /
            (percentileOf (validSamples band) high_percentile -
              percentileOf (validSamples band) low_percentile))))
    | w => w))

/-- A band with no no-data (and no infinite) pixels: every sample is
finite. -/
def AllFinite (band : List (List FVal)) : Prop :=
  ∀ row ∈ band, ∀ v ∈ row, ∃ q : ℚ, v = FVal.fin q

/-- Whether building the category map ended in an error; since
`CatError` has `duplicateCategory` as its only constructor, a `true`
result means a `DuplicateCategoryError` was raised. -/
def isError (r : Except CatError (List (ℤ × String))) : Bool :=
  match r with
  | Except.error _ => true
  | Except.ok _ => false

theorem idx2_map {α β : Type} (f : α → β) (a : List (List α)) (i j : ℕ) :
    idx2 (a.map (List.map f)) i j = (idx2 a i j).map f := by
  unfold idx2
  cases h : a[i]? <;> simp [List.getElem?_map, h]

theorem idx2_zipWith {α β γ : Type} (f : α → β → γ) {a : List (List α)}
    {b : List (List β)} {i j : ℕ} {x : α} {y : β}
    (hx : idx2 a i j = some x) (hy : idx2 b i j = some y) :
    idx2 (List.zipWith (List.zipWith f) a b) i j = some (f x y) := by
  unfold idx2 at *
  cases ha : a[i]? with
  | none => rw [ha] at hx; simp at hx
  | some ra =>
    cases hb : b[i]? with
    | none => rw [hb] at hy; simp at hy
    | some rb =>
      rw [ha] at hx
      rw [hb] at hy
      simp only [Option.some_bind] at hx hy
      rw [List.getElem?_zipWith, ha, hb]
      simp [List.getElem?_zipWith, hx, hy]

theorem idx2_mem {α : Type} {a : List (List α)} {i j : ℕ} {v : α}
    (h : idx2 a i j = some v) : ∃ row ∈ a, v ∈ row := by
  unfold idx2 at h
  cases ha : a[i]? with
  | none => rw [ha] at h; simp at h
  | some row =>
    rw [ha] at h
    simp only [Option.some_bind] at h
    exact ⟨row, List.getElem?_mem ha, List.getElem?_mem h⟩

/-- Claim C1: at a pixel of two reflectance bands where the denominator
`nir + red` is exactly zero, or where either operand is no-data, the
NDVI of cell 52 yields NaN (hence never an infinity), and under the
error state installed by cell 50 the division signals no numpy
warning or exception. -/
theorem ndvi_zero_denominator (nir red : List (List FVal))
    (hn : IsReflectance nir) (hr : IsReflectance red) (i j : ℕ)
    (n r : FVal) (hnij : idx2 nir i j = some n)
    (hrij : idx2 red i j = some r)
    (hz : fadd n r = FVal.fin 0 ∨ n = FVal.nan ∨ r = FVal.nan) :
    idx2 (ndvi nir red) i j = some FVal.nan ∧
    (∀ s : Bool, idx2 (ndvi nir red) i j ≠ some (FVal.inf s)) ∧
    npDivSignals errStateCell50 (fsub n r) (fadd n r) = false := by
  obtain ⟨rown, hrown, hnmem⟩ := idx2_mem hnij
  obtain ⟨rowr, hrowr, hrmem⟩ := idx2_mem hrij
  have hnv := hn rown hrown n hnmem
  have hrv := hr rowr hrowr r hrmem
  have hpix : ndviPix n r = FVal.nan := by
    rcases hz with hz | hz | hz
    · rcases hnv with rfl | ⟨q1, rfl, hq1⟩
      · simp [ndviPix, fsub, fadd, fneg, fdiv]
      · rcases hrv with rfl | ⟨q2, rfl, hq2⟩
        · simp [ndviPix, fsub, fadd, fneg, fdiv]
        · simp only [fadd] at hz
          have hsum : q1 + q2 = 0 := by injection hz
          have hq1z : q1 = 0 := by linarith
          have hq2z : q2 = 0 := by linarith
          subst hq1z; subst hq2z
          simp [ndviPix, fsub, fadd, fneg, fdiv]
    · subst hz; simp [ndviPix, fsub, fadd, fneg, fdiv]
    · subst hz
      rcases hnv with rfl | ⟨q1, rfl, hq1⟩ <;>
        simp [ndviPix, fsub, fadd, fneg, fdiv]
  have hmain : idx2 (ndvi nir red) i j = some FVal.nan := by
    unfold ndvi
    rw [idx2_zipWith ndviPix hnij hrij, hpix]
  refine ⟨hmain, ?_, ?_⟩
  · intro s hc
    rw [hmain] at hc
    simp at hc
  · simp [npDivSignals, errStateCell50, np_seterr, npDefaultErr]

/-- Witness for C1 at the concrete single-pixel bands
`nir = [[0]]`, `red = [[0]]`. -/
theorem ndvi_zero_denominator_witness :
    idx2 (ndvi [[FVal.fin 0]] [[FVal.fin 0]]) 0 0 = some FVal.nan := by
  have hrefl : IsReflectance [[FVal.fin 0]] := by
    intro row hrow v hv
    simp only [List.mem_singleton] at hrow
    subst hrow
    simp only [List.mem_singleton] at hv
    subst hv
    exact Or.inr ⟨0, rfl, le_refl 0⟩
  have hz : fadd (FVal.fin 0) (FVal.fin 0) = FVal.fin 0 := by
    simp [fadd]
  exact (ndvi_zero_denominator [[FVal.fin 0]] [[FVal.fin 0]] hrefl hrefl
    0 0 (FVal.fin 0) (FVal.fin 0) rfl rfl (Or.inl hz)).1

/-- Claim C2: the cell-15 normalization of a raw unsigned-integer band
by a positive scale divides each sample by the scale and maps every
raw zero to NaN, while a nonzero raw sample stays finite with value
`raw / s`. -/
theorem normalize_zero_raw (raw : List (List ℕ)) (s : ℚ) (hs : 0 < s)
    (i j : ℕ) (n : ℕ) (hij : idx2 raw i j = some n) :
    (n = 0 → idx2 (normalizeBand (ofRaw raw) s) i j = some FVal.nan) ∧
    (n ≠ 0 →
      idx2 (normalizeBand (ofRaw raw) s) i j = some (FVal.fin ((n : ℚ) / s))) := by
  have hsne : s ≠ 0 := ne_of_gt hs
  have h1 : idx2 (ofRaw raw) i j = some (FVal.fin (n : ℚ)) := by
    unfold ofRaw
    rw [idx2_map, hij]
    rfl
  have h2 : idx2 (divByScale (ofRaw raw) s) i j =
      some (fdiv (FVal.fin (n : ℚ)) (FVal.fin s)) := by
    unfold divByScale
    rw [idx2_map, h1]
    rfl
  have hdv : fdiv (FVal.fin (n : ℚ)) (FVal.fin s) = FVal.fin ((n : ℚ) / s) := by
    simp [fdiv, hsne]
  rw [hdv] at h2
  constructor
  · intro hn0
    subst hn0
    unfold normalizeBand maskZeros
    rw [idx2_map, h2]
    simp
  · intro hn0
    have hq : ((n : ℚ) / s) ≠ 0 :=
      div_ne_zero (Nat.cast_ne_zero.mpr hn0) hsne
    unfold normalizeBand maskZeros
    rw [idx2_map, h2]
    simp [hq]

/-- Witness for C2 at `raw = [[0, 3]]`, `s = 10000`. -/
theorem normalize_zero_raw_witness :
    idx2 (normalizeBand (ofRaw [[0, 3]]) 10000) 0 0 = some FVal.nan := by
  exact (normalize_zero_raw [[0, 3]] 10000 (by norm_num) 0 0 0 rfl).1 rfl

/-- Claim C3: NDVI is the elementwise formula
`(nir - red) / (nir + red)`, and at the single-pixel inputs
`[[0.5]]`, `[[0.2]]` it equals `[[3/7]]`, which is `0.4286` to four
decimal places. -/
theorem ndvi_formula :
    (∀ (nir red : List (List FVal)) (i j : ℕ) (n r : FVal),
      idx2 nir i j = some n → idx2 red i j = some r →
      idx2 (ndvi nir red) i j = some (fdiv (fsub n r) (fadd n r))) ∧
    ndvi [[FVal.fin (5 / 10)]] [[FVal.fin (2 / 10)]] = [[FVal.fin (3 / 7)]] ∧
    |(3 : ℚ) / 7 - 4286 / 10000| < 1 / 20000 := by
  refine ⟨?_, ?_, ?_⟩
  · intro nir red i j n r hn hr
    exact idx2_zipWith ndviPix hn hr
  · have h1 : fsub (FVal.fin (5 / 10)) (FVal.fin (2 / 10)) =
        FVal.fin (3 / 10) := by
      simp only [fsub, fadd, fneg]
      norm_num
    have h2 : fadd (FVal.fin (5 / 10)) (FVal.fin (2 / 10)) =
        FVal.fin (7 / 10) := by
      simp only [fadd]
      norm_num
    have h3 : fdiv (FVal.fin ((3 : ℚ) / 10)) (FVal.fin (7 / 10)) =
        FVal.fin (3 / 7) := by
      simp only [fdiv]
      rw [if_neg (by norm_num)]
      norm_num
    simp [ndvi, ndviPix, h1, h2, h3]
  · rw [abs_lt]
    constructor <;> norm_num

/-- Witness for C3: the elementwise part applied at the concrete
single-pixel input. -/
theorem ndvi_formula_witness :
    idx2 (ndvi [[FVal.fin (5 / 10)]] [[FVal.fin (2 / 10)]]) 0 0 =
      some (fdiv (fsub (FVal.fin (5 / 10)) (FVal.fin (2 / 10)))
        (fadd (FVal.fin (5 / 10)) (FVal.fin (2 / 10)))) :=
  ndvi_formula.1 [[FVal.fin (5 / 10)]] [[FVal.fin (2 / 10)]] 0 0
    (FVal.fin (5 / 10)) (FVal.fin (2 / 10)) rfl rfl

/-- Claim C5: on a band that is already no-data-masked (every sample is
NaN or finite in `(0, 1]`), re-running the cell-15 normalization with
scale factor 1 is the identity. -/
theorem normalize_idempotent (band : List (List FVal))
    (h : IsMaskedReflectance band) : normalizeBand band 1 = band := by
  have hval : ∀ row ∈ band, ∀ v ∈ row,
      (if fdiv v (FVal.fin 1) = FVal.fin 0 then FVal.nan
       else fdiv v (FVal.fin 1)) = v := by
    intro row hrow v hv
    rcases h row hrow v hv with rfl | ⟨q, rfl, hq0, hq1⟩
    · simp [fdiv]
    · have h1 : fdiv (FVal.fin q) (FVal.fin 1) = FVal.fin q := by
        simp [fdiv]
      rw [h1, if_neg]
      intro hc
      have : q = 0 := by injection hc
      exact absurd this (ne_of_gt hq0)
  unfold normalizeBand divByScale maskZeros
  rw [List.map_map]
  have hrow : ∀ row ∈ band,
      (List.map (fun v => if v = FVal.fin 0 then FVal.nan else v) ∘
        List.map (fun v => fdiv v (FVal.fin 1))) row = id row := by
    intro row hr2
    show List.map (fun v => if v = FVal.fin 0 then FVal.nan else v)
      (List.map (fun v => fdiv v (FVal.fin 1)) row) = row
    rw [List.map_map]
    have h2 : ∀ v ∈ row,
        ((fun v => if v = FVal.fin 0 then FVal.nan else v) ∘
          (fun v => fdiv v (FVal.fin 1))) v = id v := by
      intro v hv
      exact hval row hr2 v hv
    rw [List.map_congr_left h2, List.map_id]
  rw [List.map_congr_left hrow, List.map_id]

/-- Witness for C5 at the concrete masked band `[[NaN, 1/2]]`. -/
theorem normalize_idempotent_witness :
    normalizeBand [[FVal.nan, FVal.fin (1 / 2)]] 1 =
      [[FVal.nan, FVal.fin (1 / 2)]] := by
  have h : IsMaskedReflectance [[FVal.nan, FVal.fin (1 / 2)]] := by
    intro row hrow v hv
    simp only [List.mem_singleton] at hrow
    subst hrow
    simp only [List.mem_cons, List.not_mem_nil, or_false] at hv
    rcases hv with rfl | rfl
    · exact Or.inl rfl
    · exact Or.inr ⟨1 / 2, rfl, by norm_num, by norm_num⟩
  exact normalize_idempotent [[FVal.nan, FVal.fin (1 / 2)]] h

/-- Claim C10: the cell-22 correction `band[band > 1] = 1` leaves every
NaN sample and every finite sample at most 1 bitwise unchanged, turns a
finite sample strictly above 1 into 1, and modifies nothing else, so
the no-data mask is preserved. -/
theorem clamp_above_one_frame (band : List (List FVal))
    (h : IsReflectance band) (i j : ℕ) (v : FVal)
    (hij : idx2 band i j = some v) :
    ((v = FVal.nan ∨ ∃ q : ℚ, v = FVal.fin q ∧ q ≤ 1) →
      idx2 (clampAboveOne band) i j = some v) ∧
    (∀ q : ℚ, v = FVal.fin q → 1 < q →
      idx2 (clampAboveOne band) i j = some (FVal.fin 1)) ∧
    (idx2 (clampAboveOne band) i j ≠ some v →
      ∃ q : ℚ, v = FVal.fin q ∧ 1 < q) := by
  have hmap : idx2 (clampAboveOne band) i j =
      some (if fgt v (FVal.fin 1) then FVal.fin 1 else v) := by
    unfold clampAboveOne
    rw [idx2_map, hij]
    rfl
  refine ⟨?_, ?_, ?_⟩
  · rintro (rfl | ⟨q, rfl, hq⟩)
    · rw [hmap]
      simp [fgt]
    · rw [hmap]
      simp [fgt, not_lt.mpr hq]
  · rintro q rfl hq
    rw [hmap]
    simp [fgt, hq]
  · intro hch
    obtain ⟨row, hrow, hvmem⟩ := idx2_mem hij
    rcases h row hrow v hvmem with rfl | ⟨q, rfl, hq0⟩
    · exact absurd (by rw [hmap]; simp [fgt]) hch
    · rcases le_or_lt q 1 with hq1 | hq1
      · exact absurd (by rw [hmap]; simp [fgt, not_lt.mpr hq1]) hch
      · exact ⟨q, rfl, hq1⟩

/-- Witness for C10 at the concrete band `[[NaN, 1/2, 2]]`: the NaN
pixel survives the correction unchanged. -/
theorem clamp_above_one_frame_witness :
    idx2 (clampAboveOne [[FVal.nan, FVal.fin (1 / 2), FVal.fin 2]]) 0 0 =
      some FVal.nan := by
  have h : IsReflectance [[FVal.nan, FVal.fin (1 / 2), FVal.fin 2]] := by
    intro row hrow v hv
    simp only [List.mem_singleton] at hrow
    subst hrow
    simp only [List.mem_cons, List.not_mem_nil, or_false] at hv
    rcases hv with rfl | rfl | rfl
    · exact Or.inl rfl
    · exact Or.inr ⟨1 / 2, rfl, by norm_num⟩
    · exact Or.inr ⟨2, rfl, by norm_num⟩
  exact (clamp_above_one_frame [[FVal.nan, FVal.fin (1 / 2), FVal.fin 2]]
    h 0 0 FVal.nan rfl).1 (Or.inl rfl)

/-- Claim C4, counterexample: the suppression installed by cell 50 is
the process-wide `np.seterr` state, which is never restored, so after
the NDVI computation the error state still differs from the numpy
default: a divide-by-zero in any later cell is silently ignored even
though the default mode would report it. -/
theorem seterr_not_scoped :
    errStateAfterNdvi ≠ npDefaultErr ∧
    npDivSignals errStateAfterNdvi (FVal.fin 1) (FVal.fin 0) = false ∧
    npDivSignals npDefaultErr (FVal.fin 1) (FVal.fin 0) = true := by
  refine ⟨?_, ?_, ?_⟩
  · intro hc
    have : ErrMode.ignore = ErrMode.warn := congrArg NpErrState.divide hc
    cases this
  · simp [npDivSignals, errStateAfterNdvi, errStateCell50, np_seterr,
      npDefaultErr]
  · simp [npDivSignals, divRaisesDivide, divRaisesInvalid, npDefaultErr]

/-- Claim C4, amended: the cell-50 suppression is global, not scoped.
After the NDVI computation the process-wide state still has both
`divide` and `invalid` set to ignore, and under it no elementwise
division of any later operation signals a numpy warning or error. -/
theorem seterr_global_suppression :
    errStateAfterNdvi = ⟨ErrMode.ignore, ErrMode.ignore⟩ ∧
    ∀ num den : FVal, npDivSignals errStateAfterNdvi num den = false := by
  constructor
  · rfl
  · intro num den
    simp [npDivSignals, errStateAfterNdvi, errStateCell50, np_seterr,
      npDefaultErr]

/-- Claim C6: the forest mask has the shape of the categorical band,
holds only 0 and 1, is 1 exactly at pixels whose code is a forest code
(no-data pixels always map to 0), and on the concrete band
`[[1,2,3],[4,5,1]]` with forest codes `{2,4}` equals
`[[0,1,0],[1,0,0]]`. -/
theorem create_forest_mask_spec (band : List (List ℤ)) (codes : List ℤ)
    (nodata : Option ℤ) :
    (create_forest_mask band codes nodata).length = band.length ∧
    (∀ i : ℕ, ((create_forest_mask band codes nodata)[i]?).map List.length =
      (band[i]?).map List.length) ∧
    (∀ i j : ℕ, ∀ v : ℕ,
      idx2 (create_forest_mask band codes nodata) i j = some v →
      v = 0 ∨ v = 1) ∧
    (∀ i j : ℕ, ∀ c : ℤ, idx2 band i j = some c → some c ≠ nodata →
      idx2 (create_forest_mask band codes nodata) i j =
        some (if c ∈ codes then 1 else 0)) ∧
    (∀ i j : ℕ, ∀ c : ℤ, idx2 band i j = some c → some c = nodata →
      idx2 (create_forest_mask band codes nodata) i j = some 0) ∧
    create_forest_mask [[1, 2, 3], [4, 5, 1]] [2, 4] none =
      [[0, 1, 0], [1, 0, 0]] := by
  refine ⟨?_, ?_, ?_, ?_, ?_, ?_⟩
  · unfold create_forest_mask
    rw [List.length_map]
  · intro i
    unfold create_forest_mask
    cases h : band[i]? <;> simp [List.getElem?_map, h]
  · intro i j v hv
    unfold create_forest_mask at hv
    rw [idx2_map] at hv
    cases hc : idx2 band i j with
    | none => rw [hc] at hv; simp at hv
    | some c =>
      rw [hc] at hv
      simp only [Option.map_some'] at hv
      split_ifs at hv <;> simp only [Option.some_inj] at hv <;> omega
  · intro i j c hc hnd
    unfold create_forest_mask
    rw [idx2_map, hc]
    simp only [Option.map_some']
    rw [if_neg hnd]
  · intro i j c hc hnd
    unfold create_forest_mask
    rw [idx2_map, hc]
    simp only [Option.map_some']
    rw [if_pos hnd]
  · decide

/-- Witness for C6 at the single-pixel band `[[2]]` with forest codes
`{2}`. -/
theorem create_forest_mask_spec_witness :
    idx2 (create_forest_mask [[(2 : ℤ)]] [(2 : ℤ)] none) 0 0 = some 1 := by
  have h := (create_forest_mask_spec [[(2 : ℤ)]] [(2 : ℤ)] none).2.2.2.1
    0 0 2 rfl (by simp)
  simpa using h

/-- Claim C7: the percentage adapter returns the empty mapping whenever
the total count is zero (in particular on the empty record, with no
division error), otherwise maps each entry to `100 * count / total`
rounded to one decimal place; on `{"forest": 80, "water": 20}` it
returns `{"forest": 80.0, "water": 20.0}`. -/
theorem get_zonal_stats_percentage_spec :
    (∀ record : List (String × ℕ), totalCount record = 0 →
      get_zonal_stats_percentage record = []) ∧
    (∀ (record : List (String × ℕ)) (k : String) (c : ℕ),
      (k, c) ∈ record → totalCount record ≠ 0 →
      (k, round1 (100 * (c : ℚ) / (totalCount record : ℚ))) ∈
        get_zonal_stats_percentage record) ∧
    get_zonal_stats_percentage [("forest", 80), ("water", 20)] =
      [("forest", 80), ("water", 20)] ∧
    get_zonal_stats_percentage [] = [] := by
  refine ⟨?_, ?_, ?_, rfl⟩
  · intro record h
    unfold get_zonal_stats_percentage
    rw [if_pos h]
  · intro record k c hmem hne
    unfold get_zonal_stats_percentage
    rw [if_neg hne]
    exact List.mem_map_of_mem _ hmem
  · have ht : totalCount [("forest", 80), ("water", 20)] = 100 := rfl
    unfold get_zonal_stats_percentage
    rw [ht, if_neg (by norm_num : (100 : ℕ) ≠ 0)]
    have h80 : round1 (80 : ℚ) = 80 := by
      unfold round1
      rw [show (10 : ℚ) * 80 = ((800 : ℤ) : ℚ) by push_cast; norm_num,
        round_intCast]
      norm_num
    have h20 : round1 (20 : ℚ) = 20 := by
      unfold round1
      rw [show (10 : ℚ) * 20 = ((200 : ℤ) : ℚ) by push_cast; norm_num,
        round_intCast]
      norm_num
    norm_num [h80, h20]

/-- Witness for C7: the entry rule applied to the concrete record
`{"forest": 80, "water": 20}`. -/
theorem get_zonal_stats_percentage_spec_witness :
    ("forest", round1 (100 * ((80 : ℕ) : ℚ) /
      (totalCount [("forest", 80), ("water", 20)] : ℚ))) ∈
      get_zonal_stats_percentage [("forest", 80), ("water", 20)] :=
  get_zonal_stats_percentage_spec.2.1 [("forest", 80), ("water", 20)]
    "forest" 80 (by simp) (by norm_num [totalCount])

theorem foldl_insertRow_error (rows : List (Option (ℤ × String)))
    (e : CatError) :
    rows.foldl insertRow (Except.error e) = Except.error e := by
  induction rows with
  | nil => rfl
  | cons r rs ih =>
    rw [List.foldl_cons]
    exact ih

theorem lookupCode_cons_self (c : ℤ) (lbl : String)
    (m : List (ℤ × String)) : lookupCode c ((c, lbl) :: m) = some lbl := by
  simp [lookupCode, List.find?]

theorem lookupCode_cons_ne (c c2 : ℤ) (hne : c2 ≠ c) (lbl : String)
    (m : List (ℤ × String)) :
    lookupCode c ((c2, lbl) :: m) = lookupCode c m := by
  have hb : (c2 == c) = false := beq_eq_false_iff_ne.mpr hne
  simp [lookupCode, List.find?, hb]

theorem insertRow_fresh {m : List (ℤ × String)} {c : ℤ} {lbl : String}
    (hl : lookupCode c m = none) :
    insertRow (Except.ok m) (some (c, lbl)) = Except.ok ((c, lbl) :: m) := by
  simp only [insertRow]
  rw [hl]

theorem insertRow_same {m : List (ℤ × String)} {c : ℤ} {lbl x : String}
    (hl : lookupCode c m = some x) (hx : x = lbl) :
    insertRow (Except.ok m) (some (c, lbl)) = Except.ok m := by
  simp only [insertRow]
  rw [hl]
  simp [hx]

theorem insertRow_conflict {m : List (ℤ × String)} {c : ℤ} {lbl x : String}
    (hl : lookupCode c m = some x) (hx : x ≠ lbl) :
    insertRow (Except.ok m) (some (c, lbl)) =
      Except.error (CatError.duplicateCategory c) := by
  simp only [insertRow]
  rw [hl]
  simp [hx]

theorem foldl_preserves_lookup (rows : List (Option (ℤ × String)))
    (m : List (ℤ × String)) (c : ℤ) (l : String)
    (h : lookupCode c m = some l) :
    isError (rows.foldl insertRow (Except.ok m)) = true ∨
    ∃ m2, rows.foldl insertRow (Except.ok m) = Except.ok m2 ∧
      lookupCode c m2 = some l := by
  induction rows generalizing m with
  | nil => exact Or.inr ⟨m, rfl, h⟩
  | cons r rs ih =>
    rw [List.foldl_cons]
    rcases r with _ | ⟨c2, l2⟩
    · exact ih m h
    · cases hl : lookupCode c2 m with
      | none =>
        rw [insertRow_fresh hl]
        have hc2 : c2 ≠ c := by
          intro hcc
          rw [hcc, h] at hl
          cases hl
        exact ih ((c2, l2) :: m)
          (by rw [lookupCode_cons_ne c c2 hc2 l2 m]; exact h)
      | some x =>
        by_cases hx : x = l2
        · rw [insertRow_same hl hx]
          exact ih m h
        · rw [insertRow_conflict hl hx, foldl_insertRow_error]
          exact Or.inl rfl

theorem tail_conflict (B C : List (Option (ℤ × String)))
    (acc : List (ℤ × String)) (c : ℤ) (a b : String) (hab : a ≠ b)
    (hlook : lookupCode c acc = some a) :
    isError ((B ++ (some (c, b) :: C)).foldl insertRow (Except.ok acc)) =
      true := by
  rw [List.foldl_append]
  rcases foldl_preserves_lookup B acc c a hlook with herr | ⟨m2, hm2, hl2⟩
  · cases hB : B.foldl insertRow (Except.ok acc) with
    | error e =>
      rw [foldl_insertRow_error]
      rfl
    | ok mB =>
      rw [hB] at herr
      simp [isError] at herr
  · rw [hm2, List.foldl_cons, insertRow_conflict hl2 hab,
      foldl_insertRow_error]
    rfl

/-- Claim C9: building the category map from a row list in which one
code occurs twice with different labels always ends in a
`DuplicateCategoryError`; an unparsable row is skipped (the result is
the same as without it, so it is never fatal); and the concrete table
with two rows keyed 7 and different labels errs on code 7. -/
theorem get_corine_dict_spec :
    (∀ (A B C : List (Option (ℤ × String))) (c : ℤ) (a b : String),
      a ≠ b →
      isError (get_corine_dict
        (A ++ (some (c, a) :: (B ++ (some (c, b) :: C))))) = true) ∧
    (∀ A B : List (Option (ℤ × String)),
      get_corine_dict (A ++ none :: B) = get_corine_dict (A ++ B)) ∧
    get_corine_dict [some (7, "Lakes"), some (7, "Rivers")] =
      Except.error (CatError.duplicateCategory 7) := by
  refine ⟨?_, ?_, ?_⟩
  · intro A B C c a b hab
    unfold get_corine_dict
    rw [List.foldl_append]
    cases hA : A.foldl insertRow (Except.ok []) with
    | error e =>
      rw [foldl_insertRow_error]
      rfl
    | ok m0 =>
      rw [List.foldl_cons]
      cases hl : lookupCode c m0 with
      | none =>
        rw [insertRow_fresh hl]
        exact tail_conflict B C ((c, a) :: m0) c a b hab
          (lookupCode_cons_self c a m0)
      | some x =>
        by_cases hx : x = a
        · rw [insertRow_same hl hx]
          exact tail_conflict B C m0 c a b hab (by rw [hl, hx])
        · rw [insertRow_conflict hl hx, foldl_insertRow_error]
          rfl
  · intro A B
    unfold get_corine_dict
    rw [List.foldl_append, List.foldl_append, List.foldl_cons]
    have hnone : ∀ acc : Except CatError (List (ℤ × String)),
        insertRow acc none = acc := by
      intro acc
      cases acc <;> rfl
    rw [hnone]
  · rfl

/-- Witness for C9: the duplicate rule applied to the concrete
two-row table keyed 7 with labels Lakes and Rivers. -/
theorem get_corine_dict_spec_witness :
    ("Lakes" : String) ≠ "Rivers" ∧
    isError (get_corine_dict
      ([] ++ (some ((7 : ℤ), "Lakes") :: ([] ++ (some ((7 : ℤ), "Rivers") :: []))))) =
      true :=
  ⟨by decide, get_corine_dict_spec.1 [] [] [] 7 "Lakes" "Rivers" (by decide)⟩

/-- Witness for the amended C4: a concrete later division-by-zero is
silently ignored under the persisting state. -/
theorem seterr_global_suppression_witness :
    npDivSignals errStateAfterNdvi (FVal.fin 1) (FVal.fin 0) = false :=
  seterr_global_suppression.2 (FVal.fin 1) (FVal.fin 0)

theorem sorted_getElem?_le (s : List ℚ)
    (hsort : List.Sorted (fun a b : ℚ => a ≤ b) s) {i j : ℕ} (hij : i ≤ j)
    {x y : ℚ} (hx : s[i]? = some x) (hy : s[j]? = some y) : x ≤ y := by
  obtain ⟨hi, hxv⟩ := List.getElem?_eq_some_iff.mp hx
  obtain ⟨hj, hyv⟩ := List.getElem?_eq_some_iff.mp hy
  subst hxv
  subst hyv
  rcases Nat.eq_or_lt_of_le hij with heq | hlt
  · subst heq
    exact le_refl _
  · exact List.pairwise_iff_getElem.mp hsort i j hi hj hlt

theorem interp_k_lt (s : List ℚ) (r : ℚ) (hr0 : 0 ≤ r)
    (hrn : r ≤ (s.length : ℚ) - 1) : (⌊r⌋).toNat < s.length := by
  have h0 : (0 : ℤ) ≤ ⌊r⌋ := Int.le_floor.mpr (by exact_mod_cast hr0)
  have h1 : (⌊r⌋ : ℚ) ≤ (s.length : ℚ) - 1 := le_trans (Int.floor_le r) hrn
  have h2 : ⌊r⌋ ≤ (s.length : ℤ) - 1 := by exact_mod_cast h1
  omega

theorem interpAt_eq_ab {s : List ℚ} {r : ℚ} {a b : ℚ}
    (ha : s[(⌊r⌋).toNat]? = some a)
    (hb : s[(⌊r⌋).toNat + 1]? = some b) :
    interpAt s r = a + Int.fract r * (b - a) := by
  unfold interpAt
  rw [ha, hb]

theorem interpAt_eq_last {s : List ℚ} {r : ℚ} {a : ℚ}
    (ha : s[(⌊r⌋).toNat]? = some a)
    (hb : s[(⌊r⌋).toNat + 1]? = none) :
    interpAt s r = a := by
  unfold interpAt
  rw [ha, hb]

theorem interpAt_bounds (s : List ℚ)
    (hsort : List.Sorted (fun a b : ℚ => a ≤ b) s) (r : ℚ)
    (hr0 : 0 ≤ r) (hrn : r ≤ (s.length : ℚ) - 1) :
    (∃ x ∈ s, x ≤ interpAt s r) ∧ ∃ y ∈ s, interpAt s r ≤ y := by
  have hk : (⌊r⌋).toNat < s.length := interp_k_lt s r hr0 hrn
  obtain ⟨a, ha⟩ : ∃ a, s[(⌊r⌋).toNat]? = some a :=
    ⟨_, List.getElem?_eq_getElem hk⟩
  have hamem : a ∈ s := List.getElem?_mem ha
  have hf0 : 0 ≤ Int.fract r := Int.fract_nonneg r
  have hf1 : Int.fract r ≤ 1 := le_of_lt (Int.fract_lt_one r)
  cases hb : s[(⌊r⌋).toNat + 1]? with
  | none =>
    rw [interpAt_eq_last ha hb]
    exact ⟨⟨a, hamem, le_refl a⟩, ⟨a, hamem, le_refl a⟩⟩
  | some b =>
    have hbmem : b ∈ s := List.getElem?_mem hb
    have hab : a ≤ b := sorted_getElem?_le s hsort (Nat.le_succ _) ha hb
    rw [interpAt_eq_ab ha hb]
    constructor
    · exact ⟨a, hamem, by nlinarith [mul_nonneg hf0 (sub_nonneg.mpr hab)]⟩
    · exact ⟨b, hbmem,
        by nlinarith [mul_nonneg (sub_nonneg.mpr hf1) (sub_nonneg.mpr hab)]⟩

theorem interpAt_mono (s : List ℚ)
    (hsort : List.Sorted (fun a b : ℚ => a ≤ b) s) (r1 r2 : ℚ)
    (h1 : 0 ≤ r1) (h12 : r1 ≤ r2) (h2 : r2 ≤ (s.length : ℚ) - 1) :
    interpAt s r1 ≤ interpAt s r2 := by
  have hk2 : (⌊r2⌋).toNat < s.length := interp_k_lt s r2 (le_trans h1 h12) h2
  have hfl12 : ⌊r1⌋ ≤ ⌊r2⌋ := Int.floor_le_floor h12
  have hfl0 : (0 : ℤ) ≤ ⌊r1⌋ := Int.le_floor.mpr (by exact_mod_cast h1)
  have hkle : (⌊r1⌋).toNat ≤ (⌊r2⌋).toNat := by omega
  have hk1 : (⌊r1⌋).toNat < s.length := Nat.lt_of_le_of_lt hkle hk2
  obtain ⟨a1, ha1⟩ : ∃ a, s[(⌊r1⌋).toNat]? = some a :=
    ⟨_, List.getElem?_eq_getElem hk1⟩
  obtain ⟨a2, ha2⟩ : ∃ a, s[(⌊r2⌋).toNat]? = some a :=
    ⟨_, List.getElem?_eq_getElem hk2⟩
  have hf10 : 0 ≤ Int.fract r1 := Int.fract_nonneg r1
  have hf11 : Int.fract r1 ≤ 1 := le_of_lt (Int.fract_lt_one r1)
  have hf20 : 0 ≤ Int.fract r2 := Int.fract_nonneg r2
  rcases Nat.eq_or_lt_of_le hkle with heq | hlt
  · have ha2x : s[(⌊r1⌋).toNat]? = some a2 := by rw [heq]; exact ha2
    rw [ha1] at ha2x
    obtain rfl : a1 = a2 := Option.some.inj ha2x
    have hfl : ⌊r1⌋ = ⌊r2⌋ := by omega
    have hfr : Int.fract r1 ≤ Int.fract r2 := by
      unfold Int.fract
      rw [hfl]
      linarith
    cases hb : s[(⌊r2⌋).toNat + 1]? with
    | none =>
      have hb1 : s[(⌊r1⌋).toNat + 1]? = none := by rw [heq]; exact hb
      rw [interpAt_eq_last ha1 hb1, interpAt_eq_last ha2 hb]
    | some b =>
      have hb1 : s[(⌊r1⌋).toNat + 1]? = some b := by rw [heq]; exact hb
      have hab : a1 ≤ b := sorted_getElem?_le s hsort (Nat.le_succ _) ha1 hb1
      rw [interpAt_eq_ab ha1 hb1, interpAt_eq_ab ha2 hb]
      nlinarith [mul_le_mul_of_nonneg_right hfr (sub_nonneg.mpr hab)]
  · have hk1p : (⌊r1⌋).toNat + 1 < s.length := by omega
    obtain ⟨b1, hb1⟩ : ∃ b, s[(⌊r1⌋).toNat + 1]? = some b :=
      ⟨_, List.getElem?_eq_getElem hk1p⟩
    have hab1 : a1 ≤ b1 := sorted_getElem?_le s hsort (Nat.le_succ _) ha1 hb1
    have hmid : b1 ≤ a2 := sorted_getElem?_le s hsort (by omega) hb1 ha2
    have hv1le : interpAt s r1 ≤ b1 := by
      rw [interpAt_eq_ab ha1 hb1]
      nlinarith [mul_nonneg (sub_nonneg.mpr hf11) (sub_nonneg.mpr hab1)]
    have hv2ge : a2 ≤ interpAt s r2 := by
      cases hb2 : s[(⌊r2⌋).toNat + 1]? with
      | none => rw [interpAt_eq_last ha2 hb2]
      | some b2 =>
        have hab2 : a2 ≤ b2 := sorted_getElem?_le s hsort (Nat.le_succ _) ha2 hb2
        rw [interpAt_eq_ab ha2 hb2]
        nlinarith [mul_nonneg hf20 (sub_nonneg.mpr hab2)]
    linarith

theorem percentileOf_bounds (xs : List ℚ) (hxs : xs ≠ []) (p : ℚ)
    (hp0 : 0 ≤ p) (hp1 : p ≤ 100) :
    (∃ x ∈ xs, x ≤ percentileOf xs p) ∧ ∃ y ∈ xs, percentileOf xs p ≤ y := by
  have hperm := List.perm_insertionSort (fun a b : ℚ => a ≤ b) xs
  have hsort := List.sorted_insertionSort (fun a b : ℚ => a ≤ b) xs
  have hlen : (List.insertionSort (fun a b : ℚ => a ≤ b) xs).length =
      xs.length := hperm.length_eq
  have hn : 0 < xs.length := List.length_pos.mpr hxs
  have hn1 : (0 : ℚ) ≤ (xs.length : ℚ) - 1 := by
    have h : (1 : ℚ) ≤ (xs.length : ℚ) := by exact_mod_cast hn
    linarith
  have hr0 : 0 ≤ p / 100 * ((xs.length : ℚ) - 1) :=
    mul_nonneg (div_nonneg hp0 (by norm_num)) hn1
  have hrn : p / 100 * ((xs.length : ℚ) - 1) ≤
      ((List.insertionSort (fun a b : ℚ => a ≤ b) xs).length : ℚ) - 1 := by
    rw [hlen]
    exact mul_le_of_le_one_left hn1 ((div_le_one (by norm_num)).mpr hp1)
  obtain ⟨⟨x, hx, hxle⟩, ⟨y, hy, hyle⟩⟩ := interpAt_bounds _ hsort _ hr0 hrn
  unfold percentileOf
  exact ⟨⟨x, hperm.mem_iff.mp hx, hxle⟩, ⟨y, hperm.mem_iff.mp hy, hyle⟩⟩

theorem percentileOf_mono (xs : List ℚ) (hxs : xs ≠ []) (p1 p2 : ℚ)
    (hp0 : 0 ≤ p1) (h12 : p1 ≤ p2) (hp1 : p2 ≤ 100) :
    percentileOf xs p1 ≤ percentileOf xs p2 := by
  have hsort := List.sorted_insertionSort (fun a b : ℚ => a ≤ b) xs
  have hlen : (List.insertionSort (fun a b : ℚ => a ≤ b) xs).length =
      xs.length := (List.perm_insertionSort _ xs).length_eq
  have hn : 0 < xs.length := List.length_pos.mpr hxs
  have hn1 : (0 : ℚ) ≤ (xs.length : ℚ) - 1 := by
    have h : (1 : ℚ) ≤ (xs.length : ℚ) := by exact_mod_cast hn
    linarith
  unfold percentileOf
  apply interpAt_mono _ hsort
  · exact mul_nonneg (div_nonneg hp0 (by norm_num)) hn1
  · apply mul_le_mul_of_nonneg_right _ hn1
    linarith
  · rw [hlen]
    exact mul_le_of_le_one_left hn1 ((div_le_one (by norm_num)).mpr hp1)

theorem validSamples_idx2 {band : List (List FVal)} {q : ℚ} :
    q ∈ validSamples band ↔ ∃ i j : ℕ, idx2 band i j = some (FVal.fin q) := by
  unfold validSamples
  rw [List.mem_filterMap]
  constructor
  · rintro ⟨v, hvmem, hv⟩
    cases v with
    | nan => simp at hv
    | inf s => simp at hv
    | fin x =>
      simp at hv
      subst hv
      rw [List.mem_flatten] at hvmem
      obtain ⟨row, hrow, hmem⟩ := hvmem
      obtain ⟨i, hi⟩ := List.mem_iff_getElem?.mp hrow
      obtain ⟨j, hj⟩ := List.mem_iff_getElem?.mp hmem
      refine ⟨i, j, ?_⟩
      unfold idx2
      rw [hi]
      simpa using hj
  · rintro ⟨i, j, hij⟩
    refine ⟨FVal.fin q, ?_, rfl⟩
    rw [List.mem_flatten]
    obtain ⟨row, hrow, hmem⟩ := idx2_mem hij
    exact ⟨row, hrow, hmem⟩

/-- Claim C8: with the two percentile values over the (all finite)
samples distinct, the stretch maps the low percentile value to 0 and
the high percentile value to 1, clamps every output sample into
`[0, 1]`, keeps NaN pixels NaN, and attains both 0 and 1 (output
minimum 0 and maximum 1). -/
theorem stretch_spec (band : List (List FVal)) (lp hp : ℚ)
    (hfin : AllFinite band) (hne : validSamples band ≠ [])
    (hlp0 : 0 ≤ lp) (hlh : lp ≤ hp) (hhp : hp ≤ 100)
    (hdiff : percentileOf (validSamples band) lp ≠
      percentileOf (validSamples band) hp) :
    (∀ i j : ℕ,
      idx2 band i j = some (FVal.fin (percentileOf (validSamples band) lp)) →
      idx2 (stretch band lp hp) i j = some (FVal.fin 0)) ∧
    (∀ i j : ℕ,
      idx2 band i j = some (FVal.fin (percentileOf (validSamples band) hp)) →
      idx2 (stretch band lp hp) i j = some (FVal.fin 1)) ∧
    (∀ i j : ℕ, ∀ q : ℚ,
      idx2 (stretch band lp hp) i j = some (FVal.fin q) →
      0 ≤ q ∧ q ≤ 1) ∧
    (∀ i j : ℕ, idx2 band i j = some FVal.nan →
      idx2 (stretch band lp hp) i j = some FVal.nan) ∧
    (∃ i j : ℕ, idx2 (stretch band lp hp) i j = some (FVal.fin 0)) ∧
    (∃ i j : ℕ, idx2 (stretch band lp hp) i j = some (FVal.fin 1)) := by
  set lo := percentileOf (validSamples band) lp with hlodef
  set hi := percentileOf (validSamples band) hp with hhidef
  have hlohi : lo ≤ hi :=
    percentileOf_mono (validSamples band) hne lp hp hlp0 hlh hhp
  have hlthi : lo < hi := lt_of_le_of_ne hlohi hdiff
  have hpos : 0 < hi - lo := sub_pos.mpr hlthi
  have hst : stretch band lp hp = band.map (List.map (fun v =>
      match v with
      | FVal.fin q => FVal.fin (max 0 (min 1 ((q - lo) / (hi - lo))))
      | w => w)) := by
    unfold stretch
    rw [← hlodef, ← hhidef, if_neg hdiff]
  refine ⟨?_, ?_, ?_, ?_, ?_, ?_⟩
  · intro i j hij
    rw [hst, idx2_map, hij]
    show some (FVal.fin (max 0 (min 1 ((lo - lo) / (hi - lo))))) =
      some (FVal.fin 0)
    rw [sub_self, zero_div]
    norm_num
  · intro i j hij
    rw [hst, idx2_map, hij]
    show some (FVal.fin (max 0 (min 1 ((hi - lo) / (hi - lo))))) =
      some (FVal.fin 1)
    rw [div_self (ne_of_gt hpos)]
    norm_num
  · intro i j q hq
    rw [hst, idx2_map] at hq
    cases hv : idx2 band i j with
    | none => rw [hv] at hq; simp at hq
    | some v =>
      rw [hv] at hq
      simp only [Option.map_some'] at hq
      cases v with
      | nan => simp at hq
      | inf s => simp at hq
      | fin x =>
        simp only [Option.some.injEq] at hq
        have hqx : max 0 (min 1 ((x - lo) / (hi - lo))) = q := by
          injection hq
        rw [← hqx]
        exact ⟨le_max_left _ _, max_le (by norm_num) (min_le_left _ _)⟩
  · intro i j hij
    rw [hst, idx2_map, hij]
    rfl
  · obtain ⟨x, hxmem, hxle⟩ :=
      (percentileOf_bounds (validSamples band) hne lp hlp0
        (le_trans hlh hhp)).1
    obtain ⟨i, j, hij⟩ := validSamples_idx2.mp hxmem
    refine ⟨i, j, ?_⟩
    rw [hst, idx2_map, hij]
    show some (FVal.fin (max 0 (min 1 ((x - lo) / (hi - lo))))) =
      some (FVal.fin 0)
    have hxle2 : x ≤ lo := by
      rw [hlodef]
      exact hxle
    have hd : (x - lo) / (hi - lo) ≤ 0 := by
      apply div_nonpos_of_nonpos_of_nonneg
      · linarith
      · linarith
    rw [min_eq_right (hd.trans zero_le_one), max_eq_left hd]
  · obtain ⟨y, hymem, hyge⟩ :=
      (percentileOf_bounds (validSamples band) hne hp
        (le_trans hlp0 hlh) hhp).2
    obtain ⟨i, j, hij⟩ := validSamples_idx2.mp hymem
    refine ⟨i, j, ?_⟩
    rw [hst, idx2_map, hij]
    show some (FVal.fin (max 0 (min 1 ((y - lo) / (hi - lo))))) =
      some (FVal.fin 1)
    have hyge2 : hi ≤ y := by
      rw [hhidef]
      exact hyge
    have hd : 1 ≤ (y - lo) / (hi - lo) := by
      rw [one_le_div hpos]
      linarith
    rw [min_eq_left hd, max_eq_right (by norm_num : (0 : ℚ) ≤ 1)]

/-- Witness for C8 at the concrete band `[[0, 1]]` with percentiles
0 and 100: the low-percentile pixel is remapped to 0. -/
theorem stretch_spec_witness :
    idx2 (stretch [[FVal.fin 0, FVal.fin 1]] 0 100) 0 0 =
      some (FVal.fin 0) := by
  have hvs : validSamples [[FVal.fin 0, FVal.fin 1]] = [0, 1] := rfl
  have hsorteq : List.insertionSort (fun a b : ℚ => a ≤ b) [0, 1] = [0, 1] := by
    norm_num [List.insertionSort, List.orderedInsert]
  have hp0 : percentileOf [0, 1] 0 = 0 := by
    unfold percentileOf
    rw [hsorteq]
    rw [show (0 : ℚ) / 100 * ((([0, 1] : List ℚ).length : ℚ) - 1) = 0 by
      norm_num]
    have ha : ([0, 1] : List ℚ)[(⌊(0 : ℚ)⌋).toNat]? = some 0 := by
      simp [Int.floor_zero]
    have hb : ([0, 1] : List ℚ)[(⌊(0 : ℚ)⌋).toNat + 1]? = some 1 := by
      simp [Int.floor_zero]
    rw [interpAt_eq_ab ha hb, Int.fract_zero]
    norm_num
  have hp100 : percentileOf [0, 1] 100 = 1 := by
    unfold percentileOf
    rw [hsorteq]
    rw [show (100 : ℚ) / 100 * ((([0, 1] : List ℚ).length : ℚ) - 1) = 1 by
      norm_num]
    have ha : ([0, 1] : List ℚ)[(⌊(1 : ℚ)⌋).toNat]? = some 1 := by
      simp [Int.floor_one]
    have hb : ([0, 1] : List ℚ)[(⌊(1 : ℚ)⌋).toNat + 1]? = none := by
      simp [Int.floor_one]
    rw [interpAt_eq_last ha hb]
  have hfin : AllFinite [[FVal.fin 0, FVal.fin 1]] := by
    intro row hrow v hv
    simp only [List.mem_singleton] at hrow
    subst hrow
    simp only [List.mem_cons, List.not_mem_nil, or_false] at hv
    rcases hv with rfl | rfl
    · exact ⟨0, rfl⟩
    · exact ⟨1, rfl⟩
  have hne : validSamples [[FVal.fin 0, FVal.fin 1]] ≠ [] := by
    rw [hvs]
    exact List.cons_ne_nil 0 [1]
  have hdiff : percentileOf (validSamples [[FVal.fin 0, FVal.fin 1]]) 0 ≠
      percentileOf (validSamples [[FVal.fin 0, FVal.fin 1]]) 100 := by
    rw [hvs, hp0, hp100]
    norm_num
  have happ := (stretch_spec [[FVal.fin 0, FVal.fin 1]] 0 100 hfin hne
    (le_refl 0) (by norm_num) (le_refl 100) hdiff).1 0 0
  apply happ
  rw [hvs, hp0]
  rfl

end Seurasaari
